import Mathlib

/-!
Verification development for the AdaNet iteration builder
(`adanet/core/iteration.py`).

The Python module constructs, per AdaNet iteration, a set of candidate
ensembles, a fused training op, a runtime-selected best-candidate index,
and a validated `_Iteration` record.  The definitions below are a shallow
embedding of that module:

* runtime scalar tensors (losses) are rationals (`ℚ`);
* opaque tensors and train ops that the module only passes around are
  natural-number identifiers;
* Python dicts are association lists (`List (String × _)`) with
  first-occurrence lookup and replace-or-append insertion, mirroring dict
  update semantics;
* `python sorted(...)` is `List.insertionSort (· ≤ ·)` over `String`
  (lexicographic by code point, as in Python);
* fallible Python code (raised exceptions, out-of-range tensor indexing)
  returns `Except String _`;
* the deferred TensorFlow graph built by `_create_train_op` is a small op
  language (`DepOp`, `GraphOp`) with an execution semantics in which
  `tf.control_dependencies` runs the dependencies before the body and
  `tf.group` makes its body one atomic unit.
-/

/-- Execution modes (`tf.estimator.ModeKeys`). -/
inductive ModeKeys
  | TRAIN
  | EVAL
  | PREDICT
deriving DecidableEq, Repr

/-- First-occurrence lookup in an association list, mirroring Python dict
lookup (model dicts have unique keys). -/
def alookup {β : Type} : List (String × β) → String → Option β
  | [], _ => none
  | p :: ps, k => if p.1 = k then some p.2 else alookup ps k

/-- Replace-or-append insertion, mirroring Python `d[k] = v`. -/
def assocInsert {β : Type} : List (String × β) → String → β → List (String × β)
  | [], k, v => [(k, v)]
  | p :: ps, k, v => if p.1 = k then (k, v) :: ps else p :: assocInsert ps k v

/-- Lexicographic-by-code-point comparison of character lists, the order
Python uses on strings. -/
def charListLe : List Char → List Char → Bool
  | [], _ => true
  | _ :: _, [] => false
  | a :: as, b :: bs =>
    if a.val < b.val then true
    else if b.val < a.val then false
    else charListLe as bs

/-- Python string comparison `a <= b` (by code points). -/
def strLe (a b : String) : Bool :=
  charListLe a.data b.data

/-- Python `sorted` over strings (lexicographic by code point). -/
def sortStr (l : List String) : List String :=
  l.insertionSort (fun a b => strLe a b = true)

/-- Predictions of an ensemble spec: a single tensor or a dict of named
tensors (`_best_predictions` handles both shapes). -/
inductive Preds
  | tensor (t : ℕ)
  | dict (m : List (String × ℕ))
deriving DecidableEq, Repr

/-- The three `ExportOutput` kinds recognized by `_best_export_outputs`,
plus `other` for an object outside those kinds (which raises `TypeError`).
`predict` holds the output it wraps. -/
inductive ExportOutput
  | classification (scores classes : Option ℕ)
  | regression (value : ℕ)
  | predictOut (outputs : Preds)
  | other (id : ℕ)
deriving DecidableEq, Repr

/-- The `_EnsembleSpec` interface consumed by `iteration.py` (§6 of the
spec): `eval_metrics` is collapsed from a function/kwargs pair to the dict
of `(value, update_op)` tensor-id pairs that calling it returns;
`subnetwork_train_op`/`ensemble_train_op` are `None` or opaque op ids. -/
structure EnsembleSpec where
  name : String
  adanet_loss : ℚ
  loss : ℚ
  predictions : Preds
  eval_metrics : Option (List (String × (ℕ × ℕ)))
  export_outputs : List (String × ExportOutput)
  subnetwork_train_op : Option ℕ
  ensemble_train_op : Option ℕ
deriving DecidableEq, Repr

/-- A `_Candidate`: an ensemble spec plus the training-state signal and
ranking loss set by the external `_CandidateBuilder`. -/
structure Candidate where
  ensemble_spec : EnsembleSpec
  is_training : Bool
  adanet_loss : ℚ
deriving DecidableEq, Repr

/-- Minimum of a list of rationals (head-for-empty convention never used:
callers pass non-empty lists). -/
def min_list : List ℚ → ℚ
  | [] => 0
  | [x] => x
  | x :: y :: xs => min x (min_list (y :: xs))

/-- Leftmost argmin over a list of rationals.  `tf.argmin` is modelled as
returning the lowest index attaining the minimum (numpy semantics; the
spec fixes leftmost-wins as the contract for the underlying op). -/
def argmin_list : List ℚ → ℕ
  | [] => 0
  | [_] => 0
  | x :: y :: xs => if min_list (y :: xs) < x then argmin_list (y :: xs) + 1 else 0

/-- Embedding of `_IterationBuilder._best_candidate_index`: constant `0`
for a single candidate, else the (leftmost) argmin of the candidates'
`adanet_loss` values. -/
def best_candidate_index (candidates : List Candidate) : ℕ :=
  if candidates.length = 1 then 0
  else argmin_list (candidates.map (·.adanet_loss))

/-- Runtime effects of the graph ops built by `_create_train_op` and
`_assign_is_over`: running a candidate train op (opaque, logged by id),
assigning `True` to `is_over_var`, and the two step increments. -/
inductive Effect
  | candOp (id : ℕ)
  | setIsOver
  | incGlobal
  | incIter
deriving DecidableEq, Repr

/-- Dependency ops gathered by `_create_train_op`: an opaque candidate
train op, or the `tf.cond` built by `_assign_is_over` (which carries the
candidates' runtime `is_training` values its condition reads). -/
inductive DepOp
  | candTrainOp (id : ℕ)
  | condAssignIsOver (is_trainings : List Bool)
deriving DecidableEq, Repr

/-- The two op shapes `_create_train_op` returns: `tf.no_op()` outside
`TRAIN` mode, or `tf.control_dependencies(deps)` around one `tf.group` of
effects (the fused global-step and iteration-step increments). -/
inductive GraphOp
  | noOp
  | depsThenGroup (deps : List DepOp) (body : List Effect)
deriving DecidableEq, Repr

/-- Conjunction `_assign_is_over` folds over the candidates:
`is_over = logical_and(is_over, logical_not(candidate.is_training))`
starting from `True`. -/
def conjNotTraining (ts : List Bool) : Bool :=
  ts.foldl (fun acc t => acc && !t) true

/-- Effects of executing one dependency op: a candidate train op performs
its opaque update; the `tf.cond` assigns `True` to `is_over_var` exactly
when every `is_training` is false, and is a genuine no-op otherwise. -/
def depEffects : DepOp → List Effect
  | .candTrainOp i => [.candOp i]
  | .condAssignIsOver ts => if conjNotTraining ts then [Effect.setIsOver] else []

/-- Atomic units of a graph op: each dependency is its own unit, executed
before the body; the `tf.group` body is a single atomic unit. -/
def atoms : GraphOp → List (List Effect)
  | .noOp => []
  | .depsThenGroup deps body => deps.map depEffects ++ [body]

/-- Full effect trace of a graph op, dependencies first. -/
def opTrace (g : GraphOp) : List Effect :=
  (atoms g).flatten

/-- Shared mutable state at execution time: the global step, the
iteration step, `is_over_var`, and a log of the opaque candidate train
ops that have run. -/
structure ExecState where
  globalStep : ℕ
  iterStep : ℕ
  isOver : Bool
  log : List ℕ
deriving DecidableEq, Repr

def applyEffect (s : ExecState) : Effect → ExecState
  | .candOp i => { s with log := s.log ++ [i] }
  | .setIsOver => { s with isOver := true }
  | .incGlobal => { s with globalStep := s.globalStep + 1 }
  | .incIter => { s with iterStep := s.iterStep + 1 }

def applyEffects (s : ExecState) (l : List Effect) : ExecState :=
  l.foldl applyEffect s

/-- Execution of the first `k` atomic units of a graph op: an execution
pass may be interrupted between atomic units but not inside one. -/
def runAtoms (g : GraphOp) (k : ℕ) (s : ExecState) : ExecState :=
  applyEffects s ((atoms g).take k).flatten

/-- Embedding of `_IterationBuilder._assign_is_over`: the returned op is
`tf.cond(AND over not is_training, assign(is_over_var, True), no_op)`. -/
def assign_is_over (candidates : List Candidate) : DepOp :=
  .condAssignIsOver (candidates.map (·.is_training))

/-- Initial value of `is_over_var` (`tf.zeros_initializer` on a boolean
variable, from `_is_over_var`). -/
def is_over_var_init : Bool := false

/-- One training pass of the `_assign_is_over` op on the shared state. -/
def run_is_over_pass (s : ExecState) (candidates : List Candidate) : ExecState :=
  applyEffects s (depEffects (assign_is_over candidates))

/-- A sequence of training passes, each with its own candidate
`is_training` snapshot. -/
def run_is_over_passes (s : ExecState) (passes : List (List Candidate)) : ExecState :=
  passes.foldl run_is_over_pass s

/-- Embedding of the candidate loop in `_create_train_op`: for each
candidate whose `subnetwork_train_op` is not `None`, append its
subnetwork train op and its ensemble train op (reading `.train_op` on a
`None` ensemble bundle would raise, hence `Except`). -/
def gatherTrainOps : List Candidate → Except String (List DepOp)
  | [] => .ok []
  | c :: cs =>
    match c.ensemble_spec.subnetwork_train_op with
    | none => gatherTrainOps cs
    | some s =>
      match c.ensemble_spec.ensemble_train_op with
      | none => .error "ensemble_train_op is None"
      | some e =>
        match gatherTrainOps cs with
        | .error m => .error m
        | .ok rest => .ok (DepOp.candTrainOp s :: DepOp.candTrainOp e :: rest)

/-- Embedding of `_IterationBuilder._create_train_op`: `tf.no_op()`
outside `TRAIN`; otherwise the candidates' train ops plus the
`_assign_is_over` op as control dependencies of one `tf.group` fusing the
global-step and iteration-step increments. -/
def create_train_op (candidates : List Candidate) (mode : ModeKeys) :
    Except String GraphOp :=
  if mode ≠ .TRAIN then .ok .noOp
  else
    match gatherTrainOps candidates with
    | .error m => .error m
    | .ok tops =>
      .ok (.depsThenGroup (tops ++ [assign_is_over candidates])
        [Effect.incGlobal, Effect.incIter])

/-- Projection of a fallible op construction to the op (no-op on error),
used to state theorems about successfully built train ops. -/
def opOf : Except String GraphOp → GraphOp
  | .ok g => g
  | .error _ => .noOp

/-- Dependency atoms a candidate contributes to the fused train op:
none when its `subnetwork_train_op` is `None` (the carryover candidate),
otherwise its subnetwork-level and ensemble-level train ops. -/
def candidateDepAtoms (c : Candidate) : List (List Effect) :=
  match c.ensemble_spec.subnetwork_train_op, c.ensemble_spec.ensemble_train_op with
  | some s, some e => [[Effect.candOp s], [Effect.candOp e]]
  | _, _ => []

/-- The dependency set of the fused train op: every candidate's
subnetwork and ensemble train ops (in candidate order, skipping
candidates with none) followed by the completion-flag update. -/
def expectedDepAtoms (candidates : List Candidate) : List (List Effect) :=
  (candidates.map candidateDepAtoms).flatten ++
    [depEffects (assign_is_over candidates)]

/-- Example carryover candidate: `subnetwork_train_op` is `None`, as for a
previous-best ensemble. -/
def exCandCarry : Candidate :=
  ⟨⟨"prev", 1, 2, .tensor 0, none, [], none, none⟩, false, 1⟩

/-- Example freshly built candidate with both train ops present. -/
def exCandNew : Candidate :=
  ⟨⟨"t0_linear", 3, 1, .tensor 1, none, [], some 11, some 12⟩, true, 3⟩

def exCandsC3 : List Candidate := [exCandCarry, exCandNew]

/-- The train op `create_train_op` builds for `exCandsC3` in TRAIN mode. -/
def exOpC3 : GraphOp :=
  .depsThenGroup [.candTrainOp 11, .candTrainOp 12, .condAssignIsOver [false, true]]
    [Effect.incGlobal, Effect.incIter]

/-- Candidates with losses `[0.5, 0.3, 0.3]` for the C1 witness. -/
def exCandsC1 : List Candidate :=
  [⟨⟨"a", mkRat 5 10, 1, .tensor 0, none, [], none, none⟩, true, mkRat 5 10⟩,
   ⟨⟨"b", mkRat 3 10, 1, .tensor 1, none, [], none, none⟩, true, mkRat 3 10⟩,
   ⟨⟨"c", mkRat 3 10, 1, .tensor 2, none, [], none, none⟩, true, mkRat 3 10⟩]

/-- Accumulator of the candidate loop in `_best_predictions`:
`predictions` is `None`, a dict of per-key tensor lists, or a plain
tensor list.  Python truthiness makes `None`, `{}` and `[]` all falsy. -/
inductive PredAcc
  | noneAcc
  | dictAcc (m : List (String × List ℕ))
  | listAcc (l : List ℕ)
deriving DecidableEq, Repr

def PredAcc.falsy : PredAcc → Bool
  | .noneAcc => true
  | .dictAcc m => m.isEmpty
  | .listAcc l => l.isEmpty

/-- Append a tensor to the list kept for `key` (the
`if key in predictions` branch pair of `_best_predictions`). -/
def appendAtKey (m : List (String × List ℕ)) (k : String) (v : ℕ) :
    List (String × List ℕ) :=
  match alookup m k with
  | some l => assocInsert m k (l ++ [v])
  | none => m ++ [(k, [v])]

/-- One candidate step of the `_best_predictions` loop.  A dict candidate
into a list accumulator assigns a string key into a list (`TypeError`); a
tensor candidate into a dict accumulator calls `append` on a dict
(`AttributeError`). -/
def predAccStep (acc : PredAcc) (p : Preds) : Except String PredAcc :=
  match p with
  | .dict m =>
    let acc := if acc.falsy then PredAcc.dictAcc [] else acc
    match acc with
    | .dictAcc d =>
      .ok (.dictAcc ((sortStr (m.map (·.1))).foldl (fun d k =>
        match alookup m k with
        | some t => appendAtKey d k t
        | none => d) d))
    | .listAcc _ => .error "TypeError: list indices must be integers"
    | .noneAcc => .error "unreachable"
  | .tensor t =>
    let acc := if acc.falsy then PredAcc.listAcc [] else acc
    match acc with
    | .listAcc l => .ok (.listAcc (l ++ [t]))
    | .dictAcc _ => .error "AttributeError: dict object has no append"
    | .noneAcc => .error "unreachable"

/-- Run the `_best_predictions` candidate loop left to right. -/
def foldPredAcc (acc : PredAcc) : List Candidate → Except String PredAcc
  | [] => .ok acc
  | c :: cs =>
    match predAccStep acc c.ensemble_spec.predictions with
    | .error m => .error m
    | .ok acc2 => foldPredAcc acc2 cs

/-- Stacked-and-indexed selection `tf.stack(l)[idx]`: out-of-range
indexing is a runtime error. -/
def stackIndex (l : List ℕ) (idx : ℕ) : Except String ℕ :=
  match l.get? idx with
  | some v => .ok v
  | none => .error "index out of range"

/-- Per-key stacked selection for the dict case of `_best_predictions`:
iterate the sorted keys, stack each key's tensor list and index it. -/
def selectDictPreds (d : List (String × List ℕ)) (idx : ℕ) :
    List String → Except String (List (String × ℕ))
  | [] => .ok []
  | k :: ks =>
    match alookup d k with
    | some l =>
      match stackIndex l idx with
      | .error m => .error m
      | .ok v =>
        match selectDictPreds d idx ks with
        | .error m => .error m
        | .ok rest => .ok ((k, v) :: rest)
    | none => selectDictPreds d idx ks

/-- Embedding of `_IterationBuilder._best_predictions`: the single
candidate's predictions unchanged on the fast path; otherwise stack each
key's tensors (dict case, union of keys in sorted order) or the tensor
list, and index by the best-candidate index. -/
def best_predictions (candidates : List Candidate) (idx : ℕ) :
    Except String Preds :=
  if candidates.length = 1 then
    match candidates with
    | c :: _ => .ok c.ensemble_spec.predictions
    | [] => .error "unreachable"
  else
    match foldPredAcc .noneAcc candidates with
    | .error m => .error m
    | .ok (.dictAcc d) =>
      match selectDictPreds d idx (sortStr (d.map (·.1))) with
      | .ok out => .ok (.dict out)
      | .error m => .error m
    | .ok (.listAcc l) =>
      match stackIndex l idx with
      | .ok v => .ok (.tensor v)
      | .error m => .error m
    | .ok .noneAcc => .error "TypeError: predictions is None"

/-- Embedding of `_IterationBuilder._best_loss`: `None` during PREDICT,
the single candidate's own loss on the fast path, otherwise the stacked
losses sliced at the best index. -/
def best_loss (candidates : List Candidate) (idx : ℕ) (mode : ModeKeys) :
    Except String (Option ℚ) :=
  if mode = .PREDICT then .ok none
  else if candidates.length = 1 then
    match candidates with
    | c :: _ => .ok (some c.ensemble_spec.loss)
    | [] => .error "unreachable"
  else
    match (candidates.map (·.ensemble_spec.loss)).get? idx with
    | some q => .ok (some q)
    | none => .error "slice index out of range"

/-- Per-key accumulator of `_best_export_outputs`: classification keys
keep a scores list and a classes list; regression keys keep a value
list. -/
inductive ExpAcc
  | cls (scores classes : List ℕ)
  | reg (values : List ℕ)
deriving DecidableEq, Repr

/-- One key of one candidate in the grouping phase of
`_best_export_outputs`.  A kind mismatch at an existing key calls a list
method on a tuple or vice versa (`AttributeError`); an unrecognized kind
raises `TypeError`. -/
def expAccKey (acc : List (String × ExpAcc)) (k : String) (e : ExportOutput) :
    Except String (List (String × ExpAcc)) :=
  match e with
  | .classification scores classes =>
    let acc :=
      match alookup acc k with
      | none => acc ++ [(k, ExpAcc.cls [] [])]
      | some _ => acc
    match alookup acc k with
    | some (ExpAcc.cls ss cc) =>
      let ss := match scores with | some s => ss ++ [s] | none => ss
      let cc := match classes with | some c => cc ++ [c] | none => cc
      .ok (assocInsert acc k (.cls ss cc))
    | some (ExpAcc.reg _) => .error "AttributeError: kind mismatch at key"
    | none => .error "unreachable"
  | .regression v =>
    let acc :=
      match alookup acc k with
      | none => acc ++ [(k, ExpAcc.reg [])]
      | some _ => acc
    match alookup acc k with
    | some (ExpAcc.reg vs) => .ok (assocInsert acc k (.reg (vs ++ [v])))
    | some (ExpAcc.cls _ _) => .error "AttributeError: kind mismatch at key"
    | none => .error "unreachable"
  | .predictOut _ => .ok acc
  | .other _ =>
    .error "Values in export_outputs must be ClassificationOutput, RegressionOutput, or PredictOutput objects"

def expAccSpec (acc : List (String × ExpAcc)) (m : List (String × ExportOutput)) :
    List String → Except String (List (String × ExpAcc))
  | [] => .ok acc
  | k :: ks =>
    match alookup m k with
    | some e =>
      match expAccKey acc k e with
      | .error msg => .error msg
      | .ok acc2 => expAccSpec acc2 m ks
    | none => expAccSpec acc m ks

/-- Grouping phase of `_best_export_outputs`: group the candidates'
export tensors by key and `ExportOutput` kind, keys in sorted order per
candidate. -/
def expAccCandidates (acc : List (String × ExpAcc)) :
    List Candidate → Except String (List (String × ExpAcc))
  | [] => .ok acc
  | c :: cs =>
    match expAccSpec acc c.ensemble_spec.export_outputs
        (sortStr (c.ensemble_spec.export_outputs.map (·.1))) with
    | .error m => .error m
    | .ok acc2 => expAccCandidates acc2 cs

/-- Stacking phase of `_best_export_outputs` for one key, driven by the
first candidate's output kind at that key: stack the grouped components
and index by the best index (`None` components stay `None`); any other
kind reuses the precomputed best predictions. -/
def bestExportForKey (acc : List (String × ExpAcc)) (idx : ℕ)
    (bestPreds : Preds) (k : String) (e : ExportOutput) :
    Except String ExportOutput :=
  match e with
  | .classification _ _ =>
    match alookup acc k with
    | some (ExpAcc.cls ss cc) =>
      match (if ss.isEmpty then Except.ok none
             else match stackIndex ss idx with
                  | .ok v => Except.ok (some v)
                  | .error m => Except.error m) with
      | .error m => .error m
      | .ok scores =>
        match (if cc.isEmpty then Except.ok none
               else match stackIndex cc idx with
                    | .ok v => Except.ok (some v)
                    | .error m => Except.error m) with
        | .error m => .error m
        | .ok classes => .ok (.classification scores classes)
    | _ => .error "KeyError: classification key missing from grouped outputs"
  | .regression _ =>
    match alookup acc k with
    | some (ExpAcc.reg vs) =>
      match stackIndex vs idx with
      | .ok v => .ok (.regression v)
      | .error m => .error m
    | _ => .error "TypeError: cannot stack mismatched export group"
  | _ => .ok (.predictOut bestPreds)

def bestExportKeys (acc : List (String × ExpAcc)) (idx : ℕ) (bestPreds : Preds)
    (m : List (String × ExportOutput)) :
    List String → Except String (List (String × ExportOutput))
  | [] => .ok []
  | k :: ks =>
    match alookup m k with
    | some e =>
      match bestExportForKey acc idx bestPreds k e with
      | .error msg => .error msg
      | .ok out =>
        match bestExportKeys acc idx bestPreds m ks with
        | .error msg => .error msg
        | .ok rest => .ok ((k, out) :: rest)
    | none => bestExportKeys acc idx bestPreds m ks

/-- Embedding of `_IterationBuilder._best_export_outputs`: `None` outside
PREDICT; the single candidate's own export outputs on the fast path;
otherwise group per key/kind across candidates, then stack and select per
key by the best index, iterating the first candidate's keys sorted. -/
def best_export_outputs (candidates : List Candidate) (idx : ℕ)
    (mode : ModeKeys) (bestPreds : Preds) :
    Except String (Option (List (String × ExportOutput))) :=
  if mode ≠ .PREDICT then .ok none
  else if candidates.length = 1 then
    match candidates with
    | c :: _ => .ok (some c.ensemble_spec.export_outputs)
    | [] => .error "unreachable"
  else
    match candidates with
    | [] => .error "IndexError: candidates is empty"
    | c0 :: _ =>
      match expAccCandidates [] candidates with
      | .error m => .error m
      | .ok acc =>
        match bestExportKeys acc idx bestPreds c0.ensemble_spec.export_outputs
            (sortStr (c0.ensemble_spec.export_outputs.map (·.1))) with
        | .error m => .error m
        | .ok outs => .ok (some outs)

/-- Update ops grouped into a best-candidate eval metric's combined
update op: a candidate metric's own update op, or the update op of the
`tf.metrics.mean` applied to the tiled best-candidate index. -/
inductive UpdateOp
  | base (id : ℕ)
  | idxUpdate
deriving DecidableEq, Repr

/-- A best-candidate eval metric: the selected value
(`tf.stack(values)[idx]`, `none` when the index is out of range) paired
with the ordered member list of the combined `tf.group` update op. -/
abbrev BestMetric := Option ℕ × List UpdateOp

/-- Kernel-computable `str.endswith(suf)` over the underlying character
lists. -/
def strEndsWith (s suf : String) : Bool :=
  List.isSuffixOf suf.data s.data

/-- Embedding of `_IterationBuilder._collate_metric_fns_and_tensors`:
metric dicts keyed by `"candidate_i"`, skipping candidates without
`eval_metrics`.  The function/kwargs pair is collapsed to the metric dict
calling it returns (see the module comment). -/
def collate_metric_fns_and_tensors (candidates : List Candidate) :
    List (String × List (String × (ℕ × ℕ))) :=
  candidates.enum.filterMap fun p =>
    p.2.ensemble_spec.eval_metrics.map fun m =>
      ("candidate_" ++ toString p.1, m)

/-- Append one metric op to the group collected for `metric_name`. -/
def appendMetricOp (g : List (String × List (ℕ × ℕ))) (k : String)
    (v : ℕ × ℕ) : List (String × List (ℕ × ℕ)) :=
  match alookup g k with
  | some l => assocInsert g k (l ++ [v])
  | none => g ++ [(k, [v])]

/-- Embedding of `_IterationBuilder._group_metric_ops`: iterate the
candidate keys in `sorted` (string, hence lexicographic) order, then each
candidate's metric names in sorted order, grouping the `(value, update)`
pairs by metric name. -/
def group_metric_ops (fns : List (String × List (String × (ℕ × ℕ)))) :
    List (String × List (ℕ × ℕ)) :=
  (sortStr (fns.map (·.1))).foldl (fun grouped key =>
    match alookup fns key with
    | none => grouped
    | some metrics =>
      (sortStr (metrics.map (·.1))).foldl (fun g name =>
        match alookup metrics name with
        | none => g
        | some op => appendMetricOp g name op) grouped) []

/-- The fixed per-ensemble suffix recognized by `_best_eval_metrics_fn`. -/
def ensembleSuffix : String := "/adanet/adanet_weighted_ensemble"

/-- Embedding of the nested `_best_eval_metrics_fn`: for each grouped
metric name (sorted), keep it only when every candidate produced it; the
best value is `tf.stack(values)[idx]` (`idx` being the mean of the tiled
best-candidate index, i.e. the index itself), the best update op is the
`tf.group` of the per-candidate update ops with the index's own update op
appended; names ending in the per-ensemble suffix are additionally
surfaced under the stripped root name unless that root is `"loss"`. -/
def best_eval_metrics_fn (candidates : List Candidate) (idx : ℕ) :
    List (String × BestMetric) :=
  let grouped := group_metric_ops (collate_metric_fns_and_tensors candidates)
  (sortStr (grouped.map (·.1))).foldl (fun acc name =>
    match alookup grouped name with
    | none => acc
    | some ops =>
      if ops.length ≠ candidates.length then acc
      else
        let values := ops.map (·.1)
        let updates := ops.map (·.2)
        let entry : BestMetric :=
          ((values.get? idx),
           updates.map UpdateOp.base ++ [UpdateOp.idxUpdate])
        let acc := assocInsert acc name entry
        if ¬ strEndsWith name ensembleSuffix then acc
        else
          let root := name.dropRight ensembleSuffix.length
          if root = "loss" then acc
          else assocInsert acc root entry) []

/-- Embedding of `_IterationBuilder._create_best_eval_metrics_tuple`
composed with the call that produces `eval_metric_ops`: `None` outside
EVAL mode, otherwise the result of `_best_eval_metrics_fn`. -/
def create_best_eval_metrics_tuple (candidates : List Candidate) (idx : ℕ)
    (mode : ModeKeys) : Option (List (String × BestMetric)) :=
  if mode ≠ .EVAL then none
  else some (best_eval_metrics_fn candidates idx)

/-- A value stored in a `subnetwork.Report` metrics dict: a
`(value, update_op)` pair coming from an `eval_metrics` call, or the
`tf.metrics.mean` of an `adanet_loss` tensor. -/
inductive RMetric
  | op (value : ℕ) (update : ℕ)
  | meanOf (q : ℚ)
deriving DecidableEq, Repr

/-- A `subnetwork.Report` (hyperparameters and attributes are opaque
key-value pairs; only metrics matter to the claims). -/
structure Report where
  hparams : List (String × ℕ)
  attributes : List (String × ℕ)
  metrics : List (String × RMetric)
deriving DecidableEq, Repr

/-- A subnetwork `Builder`: its name and the optional result of its
`build_subnetwork_report` hook. -/
structure SubnetworkBuilder where
  name : String
  report : Option Report
deriving DecidableEq, Repr

/-- The `EstimatorSpec` assembled by `build_iteration`. -/
structure EstimatorSpec where
  mode : ModeKeys
  predictions : Preds
  loss : Option ℚ
  train_op : GraphOp
  eval_metric_ops : Option (List (String × BestMetric))
  export_outputs : Option (List (String × ExportOutput))
deriving DecidableEq, Repr

/-- The fields passed to `_Iteration.__new__`; `Option` models arguments
that may be `None` (or, for `number`, not an integer; for `candidates`,
not a list; for `subnetwork_reports`, not a dict).  `is_over_fn` is an
opaque callable id. -/
structure IterationArgs where
  number : Option ℤ
  candidates : Option (List Candidate)
  estimator_spec : Option EstimatorSpec
  best_candidate_index : Option ℕ
  summaries : List String
  is_over_fn : ℕ
  subnetwork_reports : Option (List (String × Report))
  step : Option ℕ

/-- A validated `_Iteration` record. -/
structure IterationRec where
  number : ℤ
  candidates : List Candidate
  estimator_spec : EstimatorSpec
  best_candidate_index : ℕ
  summaries : List String
  is_over_fn : ℕ
  subnetwork_reports : List (String × Report)
  step : ℕ
deriving DecidableEq, Repr

/-- Embedding of `_Iteration.__new__`: the validation chain in source
order, returning the record with all fields as given when every check
passes. -/
def iteration_new (a : IterationArgs) : Except String IterationRec :=
  match a.number with
  | none => .error "number must be an integer"
  | some n =>
    if n < 0 then .error ("number must be greater than 0 got " ++ toString n)
    else
      match a.candidates with
      | none => .error "candidates must be a non-empty list"
      | some cs =>
        if cs = [] then .error "candidates must be a non-empty list"
        else
          match a.estimator_spec with
          | none => .error "estimator_spec is required"
          | some es =>
            match a.best_candidate_index with
            | none => .error "best_candidate_index is required"
            | some bi =>
              match a.subnetwork_reports with
              | none => .error "subnetwork_reports must be a dict"
              | some rs =>
                match a.step with
                | none => .error "step is required"
                | some st =>
                  .ok ⟨n, cs, es, bi, a.summaries, a.is_over_fn, rs, st⟩

/-- The ensemble name `"t{iteration_number}_{builder_name}"`. -/
def tName (num : ℤ) (name : String) : String :=
  "t" ++ toString num ++ "_" ++ name

/-- The report `build_iteration` makes for the carryover candidate in
EVAL mode: the metrics its stored eval-metrics pair returns, plus the
mean-reduced `"adanet_loss"` metric, under empty hparams/attributes. -/
def previousEnsembleReport (p : EnsembleSpec) : Report :=
  let metrics := (p.eval_metrics.getD []).map fun q => (q.1, RMetric.op q.2.1 q.2.2)
  ⟨[], [], assocInsert metrics "adanet_loss" (.meanOf p.adanet_loss)⟩

/-- The report `build_iteration` makes for a new builder's candidate when
the mode is not PREDICT: the builder's own report (or an empty default),
overlaid in sorted order with the metrics of the candidate's
`eval_metrics`, plus the mean-reduced `"adanet_loss"` metric. -/
def builderReport (b : SubnetworkBuilder) (spec : EnsembleSpec) : Report :=
  let base := b.report.getD ⟨[], [], []⟩
  let evalMetrics :=
    match spec.eval_metrics with
    | none => base.metrics
    | some ms =>
      (sortStr (ms.map (·.1))).foldl (fun acc name =>
        match alookup ms name with
        | none => acc
        | some mv => assocInsert acc name (RMetric.op mv.1 mv.2)) base.metrics
  ⟨base.hparams, base.attributes,
    assocInsert evalMetrics "adanet_loss" (.meanOf spec.adanet_loss)⟩

/-- The builder loop of `build_iteration`: check the name against the
seen set (raising the collision error), build the ensemble spec through
the external ensemble builder and the candidate through the external
candidate builder, and record the report under the builder's own name
when the mode is not PREDICT. -/
def processBuilders
    (appendNew : String → Option EnsembleSpec → SubnetworkBuilder → EnsembleSpec)
    (buildCand : EnsembleSpec → Bool → Candidate)
    (num : ℤ) (mode : ModeKeys) (prev : Option EnsembleSpec) :
    List String → List Candidate → List (String × Report) →
    List SubnetworkBuilder →
    Except String (List String × List Candidate × List (String × Report))
  | seen, cands, reports, [] => .ok (seen, cands, reports)
  | seen, cands, reports, b :: bs =>
    if b.name ∈ seen then
      .error ("Two ensembles have the same name " ++ b.name)
    else
      let spec := appendNew (tName num b.name) prev b
      let cand := buildCand spec false
      let reports2 :=
        if mode ≠ .PREDICT then assocInsert reports b.name (builderReport b spec)
        else reports
      processBuilders appendNew buildCand num mode prev
        (seen ++ [b.name]) (cands ++ [cand]) reports2 bs

/-- Names already seen before the builder loop: the previous ensemble's
name when one is supplied. -/
def seenInit (prev : Option EnsembleSpec) : List String :=
  match prev with
  | none => []
  | some p => [p.name]

/-- Candidates before the builder loop: the carryover candidate built
from the previous ensemble spec with `is_previous_best=True`. -/
def candsInit (buildCand : EnsembleSpec → Bool → Candidate)
    (prev : Option EnsembleSpec) : List Candidate :=
  match prev with
  | none => []
  | some p => [buildCand p true]

/-- Reports before the builder loop: the carryover candidate's report,
generated only in EVAL mode and stored under the fixed key
`"previous_ensemble"`. -/
def reportsInit (mode : ModeKeys) (prev : Option EnsembleSpec) :
    List (String × Report) :=
  match prev with
  | none => []
  | some p =>
    if mode = .EVAL then [("previous_ensemble", previousEnsembleReport p)]
    else []

/-- Embedding of `_IterationBuilder.build_iteration`.  The external
collaborators are parameters: `appendNew` is
`ensemble_builder.append_new_subnetwork` (restricted to the arguments
that influence this module's outputs) and `buildCand` is
`candidate_builder.build_candidate` (spec and `is_previous_best`).
Summary handles and the TPU hook plumbing carry no claim content and are
omitted; the freshly created iteration step variable is the constant 0. -/
def build_iteration
    (appendNew : String → Option EnsembleSpec → SubnetworkBuilder → EnsembleSpec)
    (buildCand : EnsembleSpec → Bool → Candidate)
    (iteration_number : ℤ)
    (subnetwork_builders : List SubnetworkBuilder)
    (mode : ModeKeys)
    (prev : Option EnsembleSpec) :
    Except String IterationRec :=
  if subnetwork_builders = [] then
    .error "Each iteration must have at least one Builder."
  else
    match processBuilders appendNew buildCand iteration_number mode prev
        (seenInit prev) (candsInit buildCand prev) (reportsInit mode prev)
        subnetwork_builders with
    | .error m => .error m
    | .ok (_, candidates, reports) =>
      match best_predictions candidates (best_candidate_index candidates) with
      | .error m => .error m
      | .ok bpreds =>
        match best_loss candidates (best_candidate_index candidates) mode with
        | .error m => .error m
        | .ok bloss =>
          match best_export_outputs candidates (best_candidate_index candidates)
              mode bpreds with
          | .error m => .error m
          | .ok bexp =>
            match create_train_op candidates mode with
            | .error m => .error m
            | .ok top =>
              iteration_new
                ⟨some iteration_number, some candidates,
                 some ⟨mode, bpreds, bloss, top,
                   create_best_eval_metrics_tuple candidates
                     (best_candidate_index candidates) mode, bexp⟩,
                 some (best_candidate_index candidates), [], 0,
                 some reports, some 0⟩

/-- Example previous-best ensemble spec ("prev"). -/
def exPrevSpec : EnsembleSpec :=
  ⟨"prev", 1, 2, .tensor 7, some [("accuracy", (5, 6))], [], none, none⟩

/-- Example subnetwork builder ("linear") with no report hook. -/
def exBuilder : SubnetworkBuilder := ⟨"linear", none⟩

/-- The ensemble spec the example ensemble builder returns. -/
def exNewSpec : EnsembleSpec :=
  ⟨"t0_linear", 3, 1, .tensor 8, some [("accuracy", (9, 10))], [], some 11, some 12⟩

/-- Example external ensemble builder. -/
def exAppend : String → Option EnsembleSpec → SubnetworkBuilder → EnsembleSpec :=
  fun _ _ _ => exNewSpec

/-- Example external candidate builder: wraps the spec, not training. -/
def exBuildCand : EnsembleSpec → Bool → Candidate :=
  fun s _ => ⟨s, false, s.adanet_loss⟩

/-- The iteration `build_iteration` produces from the example inputs in
EVAL mode. -/
def exEvalIter : IterationRec :=
  ⟨0, [⟨exPrevSpec, false, 1⟩, ⟨exNewSpec, false, 3⟩],
   ⟨.EVAL, .tensor 7, some 2, .noOp,
    some [("accuracy", (some 5, [UpdateOp.base 6, UpdateOp.base 10, UpdateOp.idxUpdate]))],
    none⟩,
   0, [], 0,
   [("previous_ensemble", ⟨[], [], [("accuracy", .op 5 6), ("adanet_loss", .meanOf 1)]⟩),
    ("linear", ⟨[], [], [("accuracy", .op 9 10), ("adanet_loss", .meanOf 3)]⟩)],
   0⟩

/-- The iteration `build_iteration` produces from the example inputs in
TRAIN mode: note the reports hold only the new builder's entry. -/
def exTrainIter : IterationRec :=
  ⟨0, [⟨exPrevSpec, false, 1⟩, ⟨exNewSpec, false, 3⟩],
   ⟨.TRAIN, .tensor 7, some 2,
    .depsThenGroup [.candTrainOp 11, .candTrainOp 12, .condAssignIsOver [false, false]]
      [Effect.incGlobal, Effect.incIter],
    none, none⟩,
   0, [], 0,
   [("linear", ⟨[], [], [("accuracy", .op 9 10), ("adanet_loss", .meanOf 3)]⟩)],
   0⟩

/-- One of eleven candidates for the C5 failing input: candidate `i`
reports metric `"m"` with value tensor `i` and update op `100 + i`;
candidate 2 has the strictly smallest `adanet_loss`. -/
def ex5Cand (i : ℕ) : Candidate :=
  ⟨⟨"c" ++ toString i, if i = 2 then 0 else 10, 1, .tensor i,
    some [("m", (i, 100 + i))], [], none, none⟩, false,
   if i = 2 then 0 else 10⟩

/-- Eleven candidates, so that the collation keys `"candidate_0"` …
`"candidate_10"` sort lexicographically differently from their numeric
order (`"candidate_10"` before `"candidate_2"`). -/
def ex5Cands : List Candidate := (List.range 11).map ex5Cand

/-- Arguments for the C9 witness: every check satisfied, with `number`
equal to 0. -/
def exArgs : IterationArgs :=
  ⟨some 0, some [exCandCarry],
   some ⟨ModeKeys.TRAIN, .tensor 0, none, .noOp, none, none⟩,
   some 0, [], 0, some [], some 0⟩

theorem min_list_cons_cons (x y : ℚ) (xs : List ℚ) :
    min_list (x :: y :: xs) = min x (min_list (y :: xs)) := rfl

theorem argmin_lt_length : ∀ l : List ℚ, l ≠ [] → argmin_list l < l.length := by
  intro l
  induction l with
  | nil => intro h; exact absurd rfl h
  | cons x xs ih =>
    intro _
    cases xs with
    | nil => simp [argmin_list]
    | cons y ys =>
      show argmin_list (x :: y :: ys) < (x :: y :: ys).length
      rw [argmin_list]
      split
      · have := ih (by simp)
        simpa [List.length_cons] using Nat.succ_lt_succ this
      · simp

theorem getD_argmin_eq_min : ∀ l : List ℚ, l ≠ [] →
    l.getD (argmin_list l) 0 = min_list l := by
  intro l
  induction l with
  | nil => intro h; exact absurd rfl h
  | cons x xs ih =>
    intro _
    cases xs with
    | nil => simp [argmin_list, min_list]
    | cons y ys =>
      rw [argmin_list, min_list_cons_cons]
      split
      · rename_i h
        have hih := ih (by simp)
        simp only [List.getD_cons_succ]
        rw [hih]
        exact (min_eq_right (le_of_lt h)).symm
      · rename_i h
        push_neg at h
        simp only [List.getD_cons_zero]
        exact (min_eq_left h).symm

theorem min_list_le : ∀ l : List ℚ, ∀ j, j < l.length → min_list l ≤ l.getD j 0 := by
  intro l
  induction l with
  | nil => intro j hj; simp at hj
  | cons x xs ih =>
    intro j hj
    cases xs with
    | nil =>
      cases j with
      | zero => simp [min_list]
      | succ k =>
        simp only [List.length_cons, List.length_nil] at hj
        omega
    | cons y ys =>
      rw [min_list_cons_cons]
      cases j with
      | zero =>
        simp only [List.getD_cons_zero]
        exact min_le_left _ _
      | succ k =>
        have hk : k < (y :: ys).length := by
          simpa [List.length_cons] using Nat.lt_of_succ_lt_succ hj
        calc min x (min_list (y :: ys)) ≤ min_list (y :: ys) := min_le_right _ _
          _ ≤ (y :: ys).getD k 0 := ih k hk
          _ = (x :: y :: ys).getD (k + 1) 0 := by simp

theorem min_list_lt_of_lt_argmin : ∀ l : List ℚ, ∀ j, j < argmin_list l →
    min_list l < l.getD j 0 := by
  intro l
  induction l with
  | nil => intro j hj; simp [argmin_list] at hj
  | cons x xs ih =>
    intro j hj
    cases xs with
    | nil => simp [argmin_list] at hj
    | cons y ys =>
      rw [argmin_list] at hj
      rw [min_list_cons_cons]
      split at hj
      · rename_i h
        cases j with
        | zero =>
          simpa [min_eq_right (le_of_lt h)] using h
        | succ k =>
          have hk : k < argmin_list (y :: ys) := Nat.lt_of_succ_lt_succ hj
          have := ih k hk
          simpa [min_eq_right (le_of_lt h)] using this
      · simp at hj

theorem conjNotTraining_eq_all (ts : List Bool) :
    conjNotTraining ts = ts.all (fun t => !t) := by
  have general : ∀ (l : List Bool) (a : Bool),
      l.foldl (fun acc t => acc && !t) a = (a && l.all (fun t => !t)) := by
    intro l
    induction l with
    | nil => intro a; simp
    | cons t l ih =>
      intro a
      simp only [List.foldl_cons, List.all_cons, ih, Bool.and_assoc]
  simpa [conjNotTraining] using general ts true

theorem run_is_over_pass_eq (s : ExecState) (cs : List Candidate) :
    run_is_over_pass s cs =
      (if cs.all (fun c => !c.is_training) then { s with isOver := true } else s) := by
  have hall : ((cs.map fun c => c.is_training).all fun t => !t)
      = (cs.all fun c => !c.is_training) := by
    induction cs with
    | nil => rfl
    | cons c cs ih => simp [ih]
  have hde : depEffects (assign_is_over cs) =
      if conjNotTraining (cs.map (·.is_training)) then [Effect.setIsOver] else [] := rfl
  unfold run_is_over_pass
  rw [hde, conjNotTraining_eq_all, hall]
  cases h : cs.all fun c => !c.is_training <;>
    simp [Function.comp, h, applyEffects, applyEffect]

theorem is_over_monotone : ∀ (passes : List (List Candidate)) (s : ExecState),
    s.isOver = true → (run_is_over_passes s passes).isOver = true := by
  intro passes
  induction passes with
  | nil => intro s h; simpa [run_is_over_passes] using h
  | cons p ps ih =>
    intro s h
    show (List.foldl run_is_over_pass (run_is_over_pass s p) ps).isOver = true
    apply ih
    rw [run_is_over_pass_eq]
    split <;> simp [h]

theorem gatherTrainOps_atoms : ∀ (cs : List Candidate) (tops : List DepOp),
    gatherTrainOps cs = .ok tops →
    tops.map depEffects = (cs.map candidateDepAtoms).flatten := by
  intro cs
  induction cs with
  | nil =>
    intro tops h
    simp only [gatherTrainOps] at h
    cases h
    simp
  | cons c cs ih =>
    intro tops h
    rw [gatherTrainOps] at h
    cases hsub : c.ensemble_spec.subnetwork_train_op with
    | none =>
      rw [hsub] at h
      have := ih tops h
      simp [candidateDepAtoms, hsub, this]
    | some s =>
      rw [hsub] at h
      cases hens : c.ensemble_spec.ensemble_train_op with
      | none => rw [hens] at h; cases h
      | some e =>
        rw [hens] at h
        cases hg : gatherTrainOps cs with
        | error m => rw [hg] at h; cases h
        | ok rest =>
          rw [hg] at h
          cases h
          have := ih rest hg
          simp [candidateDepAtoms, hsub, hens, this, depEffects]

theorem applyEffects_steps_invariant : ∀ (l : List Effect) (s : ExecState),
    (∀ e ∈ l, e ≠ Effect.incGlobal ∧ e ≠ Effect.incIter) →
    (applyEffects s l).globalStep = s.globalStep ∧
    (applyEffects s l).iterStep = s.iterStep := by
  intro l
  induction l with
  | nil => intro s _; exact ⟨rfl, rfl⟩
  | cons e l ih =>
    intro s h
    have he := h e (by simp)
    have hrest : ∀ x ∈ l, x ≠ Effect.incGlobal ∧ x ≠ Effect.incIter :=
      fun x hx => h x (by simp [hx])
    have step : (applyEffect s e).globalStep = s.globalStep ∧
        (applyEffect s e).iterStep = s.iterStep := by
      cases e with
      | candOp i => exact ⟨rfl, rfl⟩
      | setIsOver => exact ⟨rfl, rfl⟩
      | incGlobal => exact absurd rfl he.1
      | incIter => exact absurd rfl he.2
    have := ih (applyEffect s e) hrest
    exact ⟨this.1.trans step.1, this.2.trans step.2⟩

theorem expectedDepAtoms_no_inc (cs : List Candidate) :
    ∀ e ∈ (expectedDepAtoms cs).flatten,
      e ≠ Effect.incGlobal ∧ e ≠ Effect.incIter := by
  intro e he
  simp only [expectedDepAtoms, List.flatten_append, List.mem_append,
    List.mem_flatten, List.mem_map] at he
  rcases he with ⟨a, ⟨⟨b, ⟨⟨c, hc, hb⟩, hab⟩⟩, hea⟩⟩ | he
  · subst hb
    revert hab
    unfold candidateDepAtoms
    cases c.ensemble_spec.subnetwork_train_op with
    | none => intro hab; simp at hab
    | some s =>
      cases c.ensemble_spec.ensemble_train_op with
      | none => intro hab; simp at hab
      | some t =>
        intro hab
        simp only [List.mem_cons, List.mem_singleton] at hab
        rcases hab with h | h | h
        · subst h; simp at hea; subst hea; exact ⟨by simp, by simp⟩
        · subst h; simp at hea; subst hea; exact ⟨by simp, by simp⟩
        · simp at h
  · have hde : depEffects (assign_is_over cs) =
        if conjNotTraining (cs.map (·.is_training)) then [Effect.setIsOver] else [] := rfl
    rw [hde] at he
    split at he
    · simp at he
      subst he
      exact ⟨by simp, by simp⟩
    · simp at he

/-- C2: the `is_over` flag starts false; each `_assign_is_over` pass sets
it to true exactly when every candidate's `is_training` is false (the
conjunction the op computes), performs a genuine no-op otherwise, and the
flag is monotone: once true, no sequence of later passes (with arbitrary
`is_training` values) ever makes it false again. -/
theorem c2_is_over_flag_monotone (s : ExecState) (cs : List Candidate)
    (passes : List (List Candidate)) :
    is_over_var_init = false ∧
    (run_is_over_pass s cs).isOver = (s.isOver || cs.all fun c => !c.is_training) ∧
    ((cs.all fun c => !c.is_training) = false → run_is_over_pass s cs = s) ∧
    ((cs.all fun c => !c.is_training) = true → (run_is_over_pass s cs).isOver = true) ∧
    (s.isOver = true → (run_is_over_passes s passes).isOver = true) := by
  refine ⟨rfl, ?_, ?_, ?_, is_over_monotone passes s⟩
  · rw [run_is_over_pass_eq]
    cases h : cs.all fun c => !c.is_training <;> simp [h]
  · intro h
    rw [run_is_over_pass_eq, h]
    simp
  · intro h
    rw [run_is_over_pass_eq, h]
    simp

/-- Witness for C2 at concrete inputs: a pass over a still-training
candidate is a no-op; a flag set true stays true over later passes. -/
theorem c2_is_over_flag_monotone_witness :
    run_is_over_pass ⟨0, 0, false, []⟩ [⟨⟨"a", 1, 1, .tensor 0, none, [], none, none⟩, true, 1⟩] =
      ⟨0, 0, false, []⟩ ∧
    (run_is_over_passes ⟨0, 0, true, []⟩
      [[⟨⟨"a", 1, 1, .tensor 0, none, [], none, none⟩, true, 1⟩]]).isOver = true := by
  refine ⟨?_, ?_⟩
  · exact (c2_is_over_flag_monotone ⟨0, 0, false, []⟩
      [⟨⟨"a", 1, 1, .tensor 0, none, [], none, none⟩, true, 1⟩] []).2.2.1 (by decide)
  · exact (c2_is_over_flag_monotone ⟨0, 0, true, []⟩ []
      [[⟨⟨"a", 1, 1, .tensor 0, none, [], none, none⟩, true, 1⟩]]).2.2.2.2 rfl

/-- C3: in TRAIN mode the fused train op's atomic units are exactly every
candidate's subnetwork-level and ensemble-level train ops (in candidate
order, skipping candidates whose `subnetwork_train_op` is `None`)
followed by the completion-flag update, and then one atomic group holding
both step increments; executing any prefix of atomic units either leaves
both step counters unchanged (while the dependency set is still being
executed) or — only once every dependency has taken effect — advances the
global step and the iteration step together, each by one. -/
theorem c3_train_op_fusion (candidates : List Candidate) (op : GraphOp)
    (h : create_train_op candidates ModeKeys.TRAIN = .ok op) :
    atoms op = expectedDepAtoms candidates ++ [[Effect.incGlobal, Effect.incIter]] ∧
    (∀ k s, k ≤ (expectedDepAtoms candidates).length →
      (runAtoms op k s).globalStep = s.globalStep ∧
      (runAtoms op k s).iterStep = s.iterStep) ∧
    (∀ k s, (expectedDepAtoms candidates).length < k →
      runAtoms op k s = applyEffects s (opTrace op) ∧
      (runAtoms op k s).globalStep = s.globalStep + 1 ∧
      (runAtoms op k s).iterStep = s.iterStep + 1) := by
  rw [create_train_op] at h
  simp only [if_neg (by simp : ¬(ModeKeys.TRAIN ≠ ModeKeys.TRAIN))] at h
  cases hg : gatherTrainOps candidates with
  | error m => rw [hg] at h; cases h
  | ok tops =>
    rw [hg] at h
    cases h
    have hatoms : atoms (GraphOp.depsThenGroup (tops ++ [assign_is_over candidates])
        [Effect.incGlobal, Effect.incIter]) =
        expectedDepAtoms candidates ++ [[Effect.incGlobal, Effect.incIter]] := by
      simp [atoms, expectedDepAtoms, gatherTrainOps_atoms candidates tops hg]
    refine ⟨hatoms, ?_, ?_⟩
    · intro k s hk
      have htake : ((atoms (GraphOp.depsThenGroup (tops ++ [assign_is_over candidates])
          [Effect.incGlobal, Effect.incIter])).take k) =
          (expectedDepAtoms candidates).take k := by
        rw [hatoms]
        exact List.take_append_of_le_length hk
      unfold runAtoms
      rw [htake]
      apply applyEffects_steps_invariant
      intro e he
      apply expectedDepAtoms_no_inc
      have hsub : ((expectedDepAtoms candidates).take k).flatten
          ⊆ (expectedDepAtoms candidates).flatten := by
        intro x hx
        rw [List.mem_flatten] at hx ⊢
        obtain ⟨a, ha, hxa⟩ := hx
        exact ⟨a, List.take_subset k _ ha, hxa⟩
      exact hsub he
    · intro k s hk
      have hlen : (atoms (GraphOp.depsThenGroup (tops ++ [assign_is_over candidates])
          [Effect.incGlobal, Effect.incIter])).length ≤ k := by
        rw [hatoms]
        simp only [List.length_append, List.length_cons, List.length_nil]
        omega
      have htake := List.take_of_length_le hlen
      have htr : opTrace (GraphOp.depsThenGroup (tops ++ [assign_is_over candidates])
          [Effect.incGlobal, Effect.incIter]) =
          (expectedDepAtoms candidates).flatten ++ [Effect.incGlobal, Effect.incIter] := by
        unfold opTrace
        rw [hatoms]
        simp
      have hrun : runAtoms (GraphOp.depsThenGroup (tops ++ [assign_is_over candidates])
          [Effect.incGlobal, Effect.incIter]) k s =
          applyEffects s (opTrace (GraphOp.depsThenGroup (tops ++ [assign_is_over candidates])
            [Effect.incGlobal, Effect.incIter])) := by
        unfold runAtoms
        rw [htake]
        rfl
      have hsplit : applyEffects s (opTrace (GraphOp.depsThenGroup
          (tops ++ [assign_is_over candidates]) [Effect.incGlobal, Effect.incIter])) =
          applyEffects (applyEffects s (expectedDepAtoms candidates).flatten)
            [Effect.incGlobal, Effect.incIter] := by
        rw [htr]
        unfold applyEffects
        exact List.foldl_append _ _ _ _
      have hsteps := applyEffects_steps_invariant (expectedDepAtoms candidates).flatten s
        (expectedDepAtoms_no_inc candidates)
      refine ⟨hrun, ?_, ?_⟩
      · rw [hrun, hsplit]
        simp only [applyEffects, List.foldl_cons, List.foldl_nil, applyEffect]
        exact congrArg (· + 1) hsteps.1
      · rw [hrun, hsplit]
        simp only [applyEffects, List.foldl_cons, List.foldl_nil, applyEffect]
        exact congrArg (· + 1) hsteps.2

/-- Witness for C3: the fused train op of a carryover plus one trainable
candidate, with prefix executions leaving the steps untouched until the
final atomic group advances both at once. -/
theorem c3_train_op_fusion_witness :
    create_train_op exCandsC3 ModeKeys.TRAIN = .ok exOpC3 ∧
    atoms exOpC3 = expectedDepAtoms exCandsC3 ++ [[Effect.incGlobal, Effect.incIter]] ∧
    (runAtoms exOpC3 3 ⟨5, 7, false, []⟩).globalStep = 5 ∧
    (runAtoms exOpC3 4 ⟨5, 7, false, []⟩).globalStep = 6 ∧
    (runAtoms exOpC3 4 ⟨5, 7, false, []⟩).iterStep = 8 := by
  have hok : create_train_op exCandsC3 ModeKeys.TRAIN = .ok exOpC3 := by rfl
  have h := c3_train_op_fusion exCandsC3 exOpC3 hok
  refine ⟨hok, h.1, ?_, ?_, ?_⟩
  · exact (h.2.1 3 ⟨5, 7, false, []⟩ (by decide)).1
  · exact (h.2.2 4 ⟨5, 7, false, []⟩ (by decide)).2.1
  · exact (h.2.2 4 ⟨5, 7, false, []⟩ (by decide)).2.2

/-- C1: for a non-empty candidate list, `best_candidate_index` is in
`[0, n)` and is the position of the minimum `adanet_loss`: no earlier
position has a loss that small (leftmost tie-break) and no position at
all has a smaller loss. -/
theorem c1_best_candidate_index (candidates : List Candidate)
    (h : candidates ≠ []) :
    best_candidate_index candidates < candidates.length ∧
    (candidates.map (·.adanet_loss)).getD (best_candidate_index candidates) 0 =
      min_list (candidates.map (·.adanet_loss)) ∧
    (∀ j, j < candidates.length →
      (candidates.map (·.adanet_loss)).getD (best_candidate_index candidates) 0 ≤
        (candidates.map (·.adanet_loss)).getD j 0) ∧
    (∀ j, j < best_candidate_index candidates →
      (candidates.map (·.adanet_loss)).getD (best_candidate_index candidates) 0 <
        (candidates.map (·.adanet_loss)).getD j 0) := by
  have hne : candidates.map (·.adanet_loss) ≠ [] := by
    simpa using h
  have hidx : best_candidate_index candidates =
      argmin_list (candidates.map (·.adanet_loss)) := by
    unfold best_candidate_index
    split
    · rename_i hlen
      cases candidates with
      | nil => simp at hlen
      | cons c cs =>
        cases cs with
        | nil => rfl
        | cons d ds => simp at hlen
    · rfl
  have hlenmap : (candidates.map (·.adanet_loss)).length = candidates.length :=
    List.length_map _ _
  rw [hidx]
  refine ⟨?_, ?_, ?_, ?_⟩
  · rw [← hlenmap]; exact argmin_lt_length _ hne
  · exact getD_argmin_eq_min _ hne
  · intro j hj
    rw [getD_argmin_eq_min _ hne]
    exact min_list_le _ j (by rw [hlenmap]; exact hj)
  · intro j hj
    rw [getD_argmin_eq_min _ hne]
    exact min_list_lt_of_lt_argmin _ j hj

/-- Witness for C1: losses `[0.5, 0.3, 0.3]` give index `1` (leftmost of
the two tied minima), which is inside `[0, 3)`. -/
theorem c1_best_candidate_index_witness :
    exCandsC1.map (·.adanet_loss) = [0.5, 0.3, 0.3] ∧
    best_candidate_index exCandsC1 < exCandsC1.length ∧
    best_candidate_index exCandsC1 = 1 := by
  refine ⟨?_, (c1_best_candidate_index exCandsC1 (by decide)).1, by decide⟩
  show [mkRat 5 10, mkRat 3 10, mkRat 3 10] = [0.5, 0.3, 0.3]
  norm_num [mkRat, Rat.normalize]

theorem alookup_assocInsert_self {β : Type} (m : List (String × β)) (k : String)
    (v : β) : alookup (assocInsert m k v) k = some v := by
  induction m with
  | nil => simp [assocInsert, alookup]
  | cons p ps ih =>
    by_cases h : p.1 = k
    · simp [assocInsert, h, alookup]
    · simp [assocInsert, h, alookup, ih]

theorem alookup_assocInsert_ne {β : Type} (m : List (String × β)) (k k' : String)
    (v : β) (h : k' ≠ k) : alookup (assocInsert m k v) k' = alookup m k' := by
  induction m with
  | nil => simp [assocInsert, alookup, Ne.symm h]
  | cons p ps ih =>
    by_cases hp : p.1 = k
    · have hpk : p.1 ≠ k' := by rw [hp]; exact Ne.symm h
      simp [assocInsert, hp, alookup, Ne.symm h, hpk]
    · have hins : assocInsert (p :: ps) k v = p :: assocInsert ps k v := by
        simp [assocInsert, hp]
      rw [hins]
      by_cases hp' : p.1 = k'
      · simp [alookup, hp']
      · simp [alookup, hp', ih]

theorem mem_assocInsert {β : Type} (m : List (String × β)) (k : String) (v : β)
    (p : String × β) (h : p ∈ assocInsert m k v) : p ∈ m ∨ p = (k, v) := by
  induction m with
  | nil =>
    simp only [assocInsert, List.mem_singleton] at h
    exact Or.inr h
  | cons q ps ih =>
    simp only [assocInsert] at h
    by_cases hq : q.1 = k
    · rw [if_pos hq] at h
      rcases List.mem_cons.mp h with h | h
      · exact Or.inr h
      · exact Or.inl (List.mem_cons_of_mem _ h)
    · rw [if_neg hq] at h
      rcases List.mem_cons.mp h with h | h
      · exact Or.inl (h ▸ List.mem_cons_self _ _)
      · rcases ih h with h | h
        · exact Or.inl (List.mem_cons_of_mem _ h)
        · exact Or.inr h

theorem processBuilders_preserve_seen
    (A : String → Option EnsembleSpec → SubnetworkBuilder → EnsembleSpec)
    (B : EnsembleSpec → Bool → Candidate) (num : ℤ) (mode : ModeKeys)
    (prev : Option EnsembleSpec) :
    ∀ (bs : List SubnetworkBuilder) (seen : List String)
      (cands : List Candidate) (reports : List (String × Report))
      (out : List String × List Candidate × List (String × Report)),
    processBuilders A B num mode prev seen cands reports bs = .ok out →
    ∀ k, k ∈ seen → alookup out.2.2 k = alookup reports k := by
  intro bs
  induction bs with
  | nil =>
    intro seen cands reports out h k hk
    simp only [processBuilders] at h
    cases h
    rfl
  | cons b bs ih =>
    intro seen cands reports out h k hk
    simp only [processBuilders] at h
    by_cases hb : b.name ∈ seen
    · rw [if_pos hb] at h; cases h
    · rw [if_neg hb] at h
      have hk2 : k ∈ seen ++ [b.name] := List.mem_append_left _ hk
      have hkb : k ≠ b.name := fun he => hb (he ▸ hk)
      have hstep := ih _ _ _ _ h k hk2
      rw [hstep]
      split
      · exact alookup_assocInsert_ne _ _ _ _ hkb
      · rfl

theorem processBuilders_lookup_builder
    (A : String → Option EnsembleSpec → SubnetworkBuilder → EnsembleSpec)
    (B : EnsembleSpec → Bool → Candidate) (num : ℤ) (mode : ModeKeys)
    (prev : Option EnsembleSpec) (hmode : mode ≠ .PREDICT) :
    ∀ (bs : List SubnetworkBuilder) (seen : List String)
      (cands : List Candidate) (reports : List (String × Report))
      (out : List String × List Candidate × List (String × Report)),
    processBuilders A B num mode prev seen cands reports bs = .ok out →
    ∀ b ∈ bs, alookup out.2.2 b.name =
      some (builderReport b (A (tName num b.name) prev b)) := by
  intro bs
  induction bs with
  | nil => intro seen cands reports out h b hb; simp at hb
  | cons b0 bs ih =>
    intro seen cands reports out h b hb
    simp only [processBuilders] at h
    by_cases hseen : b0.name ∈ seen
    · rw [if_pos hseen] at h; cases h
    · rw [if_neg hseen] at h
      rcases List.mem_cons.mp hb with hb | hb
      · subst hb
        have hmem : b.name ∈ seen ++ [b.name] := List.mem_append_right _ (by simp)
        have hpres := processBuilders_preserve_seen A B num mode prev
          bs _ _ _ _ h b.name hmem
        rw [hpres]
        rw [if_pos hmode]
        exact alookup_assocInsert_self _ _ _
      · exact ih _ _ _ _ h b hb

theorem processBuilders_not_mem
    (A : String → Option EnsembleSpec → SubnetworkBuilder → EnsembleSpec)
    (B : EnsembleSpec → Bool → Candidate) (num : ℤ) (mode : ModeKeys)
    (prev : Option EnsembleSpec) :
    ∀ (bs : List SubnetworkBuilder) (seen : List String)
      (cands : List Candidate) (reports : List (String × Report))
      (out : List String × List Candidate × List (String × Report)),
    processBuilders A B num mode prev seen cands reports bs = .ok out →
    ∀ k, k ∉ bs.map (·.name) → alookup out.2.2 k = alookup reports k := by
  intro bs
  induction bs with
  | nil =>
    intro seen cands reports out h k _
    simp only [processBuilders] at h
    cases h
    rfl
  | cons b bs ih =>
    intro seen cands reports out h k hk
    simp only [processBuilders] at h
    by_cases hb : b.name ∈ seen
    · rw [if_pos hb] at h; cases h
    · rw [if_neg hb] at h
      simp only [List.map_cons, List.mem_cons] at hk
      push_neg at hk
      have hstep := ih _ _ _ _ h k (by simpa using hk.2)
      rw [hstep]
      split
      · exact alookup_assocInsert_ne _ _ _ _ hk.1
      · rfl

theorem processBuilders_adanet_loss_invariant
    (A : String → Option EnsembleSpec → SubnetworkBuilder → EnsembleSpec)
    (B : EnsembleSpec → Bool → Candidate) (num : ℤ) (mode : ModeKeys)
    (prev : Option EnsembleSpec) :
    ∀ (bs : List SubnetworkBuilder) (seen : List String)
      (cands : List Candidate) (reports : List (String × Report))
      (out : List String × List Candidate × List (String × Report)),
    processBuilders A B num mode prev seen cands reports bs = .ok out →
    (∀ p ∈ reports, (alookup p.2.metrics "adanet_loss").isSome = true) →
    ∀ p ∈ out.2.2, (alookup p.2.metrics "adanet_loss").isSome = true := by
  intro bs
  induction bs with
  | nil =>
    intro seen cands reports out h hint p hp
    simp only [processBuilders] at h
    cases h
    exact hint p hp
  | cons b bs ih =>
    intro seen cands reports out h hint p hp
    simp only [processBuilders] at h
    by_cases hb : b.name ∈ seen
    · rw [if_pos hb] at h; cases h
    · rw [if_neg hb] at h
      refine ih _ _ _ _ h ?_ p hp
      intro q hq
      split at hq
      · rcases mem_assocInsert _ _ _ _ hq with hq | hq
        · exact hint q hq
        · subst hq
          show (alookup (builderReport b (A (tName num b.name) prev b)).metrics
            "adanet_loss").isSome = true
          unfold builderReport
          rw [alookup_assocInsert_self]
          rfl
      · exact hint q hq

theorem processBuilders_collision
    (A : String → Option EnsembleSpec → SubnetworkBuilder → EnsembleSpec)
    (B : EnsembleSpec → Bool → Candidate) (num : ℤ) (mode : ModeKeys)
    (prev : Option EnsembleSpec) :
    ∀ (bs : List SubnetworkBuilder) (seen : List String)
      (cands : List Candidate) (reports : List (String × Report)),
    ((∃ b ∈ bs, b.name ∈ seen) ∨ ¬ (bs.map (·.name)).Nodup) →
    ∃ n, processBuilders A B num mode prev seen cands reports bs =
      .error ("Two ensembles have the same name " ++ n) := by
  intro bs
  induction bs with
  | nil =>
    intro seen cands reports h
    rcases h with ⟨b, hb, _⟩ | h
    · simp at hb
    · simp at h
  | cons b bs ih =>
    intro seen cands reports h
    by_cases hb : b.name ∈ seen
    · refine ⟨b.name, ?_⟩
      simp only [processBuilders]
      rw [if_pos hb]
    · have hnext : (∃ b2 ∈ bs, b2.name ∈ seen ++ [b.name]) ∨
          ¬ (bs.map (·.name)).Nodup := by
        rcases h with ⟨b2, hb2, hmem⟩ | h
        · rcases List.mem_cons.mp hb2 with hb2 | hb2
          · exact absurd (hb2 ▸ hmem) hb
          · exact Or.inl ⟨b2, hb2, List.mem_append_left _ hmem⟩
        · simp only [List.map_cons, List.nodup_cons] at h
          push_neg at h
          by_cases hdup : b.name ∈ bs.map (·.name)
          · obtain ⟨b2, hb2, hname⟩ := List.mem_map.mp hdup
            exact Or.inl ⟨b2, hb2,
              List.mem_append_right _ (by simp [hname])⟩
          · exact Or.inr (h hdup)
      obtain ⟨n, hn⟩ := ih (seen ++ [b.name]) _ _ hnext
      refine ⟨n, ?_⟩
      simp only [processBuilders]
      rw [if_neg hb]
      exact hn

theorem build_iteration_ok_inversion
    (A : String → Option EnsembleSpec → SubnetworkBuilder → EnsembleSpec)
    (B : EnsembleSpec → Bool → Candidate) (num : ℤ)
    (builders : List SubnetworkBuilder) (mode : ModeKeys)
    (prev : Option EnsembleSpec) (r : IterationRec)
    (h : build_iteration A B num builders mode prev = .ok r) :
    ∃ seen, processBuilders A B num mode prev (seenInit prev)
      (candsInit B prev) (reportsInit mode prev) builders =
      .ok (seen, r.candidates, r.subnetwork_reports) := by
  rw [build_iteration] at h
  by_cases hb : builders = []
  · rw [if_pos hb] at h; cases h
  · rw [if_neg hb] at h
    cases hp : processBuilders A B num mode prev (seenInit prev) (candsInit B prev)
        (reportsInit mode prev) builders with
    | error m => rw [hp] at h; cases h
    | ok trip =>
      obtain ⟨seen, cands, reports⟩ := trip
      rw [hp] at h
      dsimp only at h
      cases hbp : best_predictions cands (best_candidate_index cands) with
      | error m => rw [hbp] at h; cases h
      | ok bpreds =>
        rw [hbp] at h
        dsimp only at h
        cases hbl : best_loss cands (best_candidate_index cands) mode with
        | error m => rw [hbl] at h; cases h
        | ok bloss =>
          rw [hbl] at h
          dsimp only at h
          cases hbe : best_export_outputs cands (best_candidate_index cands)
              mode bpreds with
          | error m => rw [hbe] at h; cases h
          | ok bexp =>
            rw [hbe] at h
            dsimp only at h
            cases hto : create_train_op cands mode with
            | error m => rw [hto] at h; cases h
            | ok top =>
              rw [hto] at h
              dsimp only at h
              simp only [iteration_new] at h
              split at h
              · cases h
              · split at h
                · cases h
                · cases h
                  exact ⟨seen, rfl⟩

/-- C7: for a single-candidate iteration the best index is the constant
0, and the best predictions, best loss (non-PREDICT modes) and best
export outputs (PREDICT mode) are the candidate's own values unchanged —
the explicit fast paths, no stacking or selection. -/
theorem c7_single_candidate (c : Candidate) (idx : ℕ) (mode : ModeKeys)
    (bp : Preds) (hmode : mode ≠ ModeKeys.PREDICT) :
    best_candidate_index [c] = 0 ∧
    best_predictions [c] idx = .ok c.ensemble_spec.predictions ∧
    best_loss [c] idx mode = .ok (some c.ensemble_spec.loss) ∧
    best_export_outputs [c] idx ModeKeys.PREDICT bp =
      .ok (some c.ensemble_spec.export_outputs) := by
  refine ⟨rfl, rfl, ?_, rfl⟩
  cases mode with
  | TRAIN => rfl
  | EVAL => rfl
  | PREDICT => exact absurd rfl hmode

/-- Witness for C7 at a concrete candidate in TRAIN mode. -/
theorem c7_single_candidate_witness :
    best_candidate_index [exCandCarry] = 0 ∧
    best_predictions [exCandCarry] 5 = .ok exCandCarry.ensemble_spec.predictions ∧
    best_loss [exCandCarry] 5 ModeKeys.TRAIN =
      .ok (some exCandCarry.ensemble_spec.loss) ∧
    best_export_outputs [exCandCarry] 5 ModeKeys.PREDICT (.tensor 99) =
      .ok (some exCandCarry.ensemble_spec.export_outputs) :=
  c7_single_candidate exCandCarry 5 ModeKeys.TRAIN (.tensor 99) (by decide)

/-- C4: mode gating — in PREDICT the best loss and the eval metric ops
are absent and the train op is a no-op; in TRAIN and EVAL the export
outputs are absent; in EVAL every generated subnetwork report carries an
"adanet_loss" metric. -/
theorem c4_mode_gating :
    (∀ (cs : List Candidate) (idx : ℕ),
      best_loss cs idx ModeKeys.PREDICT = .ok none) ∧
    (∀ (cs : List Candidate) (idx : ℕ),
      create_best_eval_metrics_tuple cs idx ModeKeys.PREDICT = none) ∧
    (∀ cs : List Candidate, create_train_op cs ModeKeys.PREDICT = .ok .noOp) ∧
    (∀ (cs : List Candidate) (idx : ℕ) (bp : Preds),
      best_export_outputs cs idx ModeKeys.TRAIN bp = .ok none) ∧
    (∀ (cs : List Candidate) (idx : ℕ) (bp : Preds),
      best_export_outputs cs idx ModeKeys.EVAL bp = .ok none) ∧
    (∀ A B (num : ℤ) (builders : List SubnetworkBuilder)
        (prev : Option EnsembleSpec) (r : IterationRec),
      build_iteration A B num builders ModeKeys.EVAL prev = .ok r →
      ∀ p ∈ r.subnetwork_reports,
        (alookup p.2.metrics "adanet_loss").isSome = true) := by
  refine ⟨fun cs idx => rfl, fun cs idx => rfl, fun cs => rfl,
    fun cs idx bp => rfl, fun cs idx bp => rfl, ?_⟩
  intro A B num builders prev r h p hp
  obtain ⟨seen, hproc⟩ := build_iteration_ok_inversion A B num builders _ prev r h
  refine processBuilders_adanet_loss_invariant A B num _ prev builders _ _ _ _
    hproc ?_ p hp
  intro q hq
  unfold reportsInit at hq
  cases prev with
  | none => simp at hq
  | some pv =>
    simp only [if_pos rfl, if_true, List.mem_singleton] at hq
    subst hq
    show (alookup (previousEnsembleReport pv).metrics "adanet_loss").isSome = true
    unfold previousEnsembleReport
    rw [alookup_assocInsert_self]
    rfl

/-- Witness for C4's EVAL-report conjunct at the concrete example. -/
theorem c4_mode_gating_witness :
    (alookup (previousEnsembleReport exPrevSpec).metrics "adanet_loss").isSome
      = true := by
  have hb : build_iteration exAppend exBuildCand 0 [exBuilder] ModeKeys.EVAL
      (some exPrevSpec) = .ok exEvalIter := by rfl
  exact c4_mode_gating.2.2.2.2.2 exAppend exBuildCand 0 [exBuilder]
    (some exPrevSpec) exEvalIter hb
    ("previous_ensemble", previousEnsembleReport exPrevSpec) (by decide)

/-- C8: whenever the previous-best ensemble's name equals some new
builder's name, or two builders share a name, `build_iteration` fails
with the naming-collision error rather than proceeding. -/
theorem c8_name_collision
    (A : String → Option EnsembleSpec → SubnetworkBuilder → EnsembleSpec)
    (B : EnsembleSpec → Bool → Candidate) (num : ℤ)
    (builders : List SubnetworkBuilder) (mode : ModeKeys)
    (prev : Option EnsembleSpec)
    (h : (∃ p, prev = some p ∧ p.name ∈ builders.map (·.name)) ∨
      ¬ (builders.map (·.name)).Nodup) :
    ∃ n, build_iteration A B num builders mode prev =
      .error ("Two ensembles have the same name " ++ n) := by
  have hne : builders ≠ [] := by
    rcases h with ⟨p, _, hmem⟩ | h
    · intro he; subst he; simp at hmem
    · intro he; subst he; simp at h
  have hcol : (∃ b ∈ builders, b.name ∈ seenInit prev) ∨
      ¬ (builders.map (·.name)).Nodup := by
    rcases h with ⟨p, hp, hmem⟩ | h
    · obtain ⟨b, hb, hname⟩ := List.mem_map.mp hmem
      refine Or.inl ⟨b, hb, ?_⟩
      rw [hp]
      unfold seenInit
      simp [hname]
    · exact Or.inr h
  obtain ⟨n, hn⟩ := processBuilders_collision A B num mode prev builders
    (seenInit prev) (candsInit B prev) (reportsInit mode prev) hcol
  refine ⟨n, ?_⟩
  rw [build_iteration, if_neg hne, hn]

/-- Witness for C8: two builders both named "linear" make the build fail
with the collision error. -/
theorem c8_name_collision_witness :
    ∃ n, build_iteration exAppend exBuildCand 0 [exBuilder, exBuilder]
      ModeKeys.TRAIN none =
      .error ("Two ensembles have the same name " ++ n) :=
  c8_name_collision exAppend exBuildCand 0 [exBuilder, exBuilder]
    ModeKeys.TRAIN none (Or.inr (by decide))

/-- C10: the carryover candidate's report is stored under the fixed key
"previous_ensemble" whatever the previous ensemble's name, each new
builder's report is stored under the builder's own name, and at the
concrete example the report keys differ from the candidate names. -/
theorem c10_previous_ensemble_key :
    (∀ A B (num : ℤ) (builders : List SubnetworkBuilder)
        (p : EnsembleSpec) (r : IterationRec),
      "previous_ensemble" ∉ builders.map (·.name) →
      build_iteration A B num builders ModeKeys.EVAL (some p) = .ok r →
      alookup r.subnetwork_reports "previous_ensemble" =
        some (previousEnsembleReport p) ∧
      ∀ b ∈ builders, alookup r.subnetwork_reports b.name =
        some (builderReport b (A (tName num b.name) (some p) b))) ∧
    (build_iteration exAppend exBuildCand 0 [exBuilder] ModeKeys.EVAL
        (some exPrevSpec) = .ok exEvalIter ∧
     exEvalIter.subnetwork_reports.map Prod.fst =
       ["previous_ensemble", "linear"] ∧
     exEvalIter.candidates.map (·.ensemble_spec.name) = ["prev", "t0_linear"] ∧
     ["previous_ensemble", "linear"] ≠ ["prev", "t0_linear"]) := by
  constructor
  · intro A B num builders p r hnm h
    obtain ⟨seen, hproc⟩ := build_iteration_ok_inversion A B num builders _
      (some p) r h
    constructor
    · have hstep := processBuilders_not_mem A B num _ (some p) builders _ _ _ _
        hproc "previous_ensemble" hnm
      rw [hstep]
      simp [reportsInit, alookup]
    · intro b hb
      exact processBuilders_lookup_builder A B num _ (some p) (by decide)
        builders _ _ _ _ hproc b hb
  · exact ⟨by rfl, by decide, by decide, by decide⟩

/-- Witness for C10's universally quantified part at the example. -/
theorem c10_previous_ensemble_key_witness :
    alookup exEvalIter.subnetwork_reports "previous_ensemble" =
      some (previousEnsembleReport exPrevSpec) :=
  (c10_previous_ensemble_key.1 exAppend exBuildCand 0 [exBuilder] exPrevSpec
    exEvalIter (by decide) (by rfl)).1

/-- Counterexample to C6 as stated: in TRAIN mode (which is not PREDICT)
with a previous ensemble supplied, the build succeeds with two candidates
but generates no report for the carryover candidate — the only report key
is the new builder's. -/
theorem c6_carryover_report_counterexample :
    build_iteration exAppend exBuildCand 0 [exBuilder] ModeKeys.TRAIN
      (some exPrevSpec) = .ok exTrainIter ∧
    ModeKeys.TRAIN ≠ ModeKeys.PREDICT ∧
    exTrainIter.candidates.length = 2 ∧
    exTrainIter.subnetwork_reports.map Prod.fst = ["linear"] ∧
    alookup exTrainIter.subnetwork_reports "previous_ensemble" = none :=
  ⟨by rfl, by decide, by decide, by decide, by decide⟩

/-- C6 (amended): whenever the mode is not PREDICT, every new builder's
candidate gets a report under the builder's name carrying its own metrics
plus the mean-reduced "adanet_loss" metric; the carryover candidate's
report — built directly from its stored eval-metrics pair, with
"adanet_loss" added — is generated only in EVAL mode, and in TRAIN mode
the carryover candidate has no report. -/
theorem c6_reports_amended :
    (∀ (b : SubnetworkBuilder) (spec : EnsembleSpec),
      alookup (builderReport b spec).metrics "adanet_loss" =
        some (RMetric.meanOf spec.adanet_loss)) ∧
    (∀ p : EnsembleSpec,
      alookup (previousEnsembleReport p).metrics "adanet_loss" =
        some (RMetric.meanOf p.adanet_loss)) ∧
    (∀ A B (num : ℤ) (builders : List SubnetworkBuilder) (mode : ModeKeys)
        (prev : Option EnsembleSpec) (r : IterationRec),
      mode ≠ ModeKeys.PREDICT →
      build_iteration A B num builders mode prev = .ok r →
      ∀ b ∈ builders, alookup r.subnetwork_reports b.name =
        some (builderReport b (A (tName num b.name) prev b))) ∧
    (∀ A B (num : ℤ) (builders : List SubnetworkBuilder) (p : EnsembleSpec)
        (r : IterationRec),
      "previous_ensemble" ∉ builders.map (·.name) →
      build_iteration A B num builders ModeKeys.EVAL (some p) = .ok r →
      alookup r.subnetwork_reports "previous_ensemble" =
        some (previousEnsembleReport p)) ∧
    (∀ A B (num : ℤ) (builders : List SubnetworkBuilder) (p : EnsembleSpec)
        (r : IterationRec),
      "previous_ensemble" ∉ builders.map (·.name) →
      build_iteration A B num builders ModeKeys.TRAIN (some p) = .ok r →
      alookup r.subnetwork_reports "previous_ensemble" = none) := by
  refine ⟨?_, ?_, ?_, ?_, ?_⟩
  · intro b spec
    unfold builderReport
    exact alookup_assocInsert_self _ _ _
  · intro p
    unfold previousEnsembleReport
    exact alookup_assocInsert_self _ _ _
  · intro A B num builders mode prev r hmode h b hb
    obtain ⟨seen, hproc⟩ := build_iteration_ok_inversion A B num builders mode
      prev r h
    exact processBuilders_lookup_builder A B num mode prev hmode builders
      _ _ _ _ hproc b hb
  · intro A B num builders p r hnm h
    obtain ⟨seen, hproc⟩ := build_iteration_ok_inversion A B num builders _
      (some p) r h
    have hstep := processBuilders_not_mem A B num _ (some p) builders _ _ _ _
      hproc "previous_ensemble" hnm
    rw [hstep]
    simp [reportsInit, alookup]
  · intro A B num builders p r hnm h
    obtain ⟨seen, hproc⟩ := build_iteration_ok_inversion A B num builders _
      (some p) r h
    have hstep := processBuilders_not_mem A B num _ (some p) builders _ _ _ _
      hproc "previous_ensemble" hnm
    rw [hstep]
    simp [reportsInit, alookup]

/-- Witness for C6's amended claim at the concrete TRAIN-mode example. -/
theorem c6_reports_amended_witness :
    alookup exTrainIter.subnetwork_reports "linear" =
      some (builderReport exBuilder
        (exAppend (tName 0 "linear") (some exPrevSpec) exBuilder)) :=
  c6_reports_amended.2.2.1 exAppend exBuildCand 0 [exBuilder] ModeKeys.TRAIN
    (some exPrevSpec) exTrainIter (by decide) (by rfl) exBuilder (by decide)

set_option maxRecDepth 4000 in
/-- C5 failing input: with 11 candidates all reporting metric `"m"` and
best candidate index 2, `_group_metric_ops` orders the per-candidate ops
by the lexicographically sorted keys `"candidate_0"`, `"candidate_1"`,
`"candidate_10"`, `"candidate_2"`, …, so `tf.stack(values)[2]` selects
candidate 10's value (tensor id 10) instead of the winning candidate 2's
value (tensor id 2) — contradicting the claim (and the function's own
docstring) that the aggregated entry is the best candidate's metric.  The
eligibility count and the folding of the index update op behave as
claimed. -/
theorem c5_best_metric_selects_wrong_candidate :
    ex5Cands.length = 11 ∧
    best_candidate_index ex5Cands = 2 ∧
    (ex5Cand 2).ensemble_spec.eval_metrics = some [("m", (2, 102))] ∧
    (ex5Cand 10).ensemble_spec.eval_metrics = some [("m", (10, 110))] ∧
    alookup (best_eval_metrics_fn ex5Cands (best_candidate_index ex5Cands)) "m" =
      some (some 10,
        [UpdateOp.base 100, UpdateOp.base 101, UpdateOp.base 110,
         UpdateOp.base 102, UpdateOp.base 103, UpdateOp.base 104,
         UpdateOp.base 105, UpdateOp.base 106, UpdateOp.base 107,
         UpdateOp.base 108, UpdateOp.base 109, UpdateOp.idxUpdate]) ∧
    ¬ ((some 10 : Option ℕ) = some 2) := by
  refine ⟨by decide, by decide, by decide, by decide, by decide, by decide⟩

/-- C9: `_Iteration` construction succeeds exactly when `number` is a
non-negative integer (0 included), `candidates` is a non-empty list,
`estimator_spec`, `best_candidate_index` and `step` are present and
`subnetwork_reports` is a mapping; on success the record holds every
field as given, and any violation raises instead (no instance exists). -/
theorem c9_iteration_validation (a : IterationArgs) :
    ((∃ r, iteration_new a = .ok r) ↔
      ((∃ n, a.number = some n ∧ 0 ≤ n) ∧
       (∃ cs, a.candidates = some cs ∧ cs ≠ []) ∧
       a.estimator_spec.isSome = true ∧
       a.best_candidate_index.isSome = true ∧
       a.subnetwork_reports.isSome = true ∧
       a.step.isSome = true)) ∧
    (∀ n cs es bi rs st,
      a.number = some n → 0 ≤ n → a.candidates = some cs → cs ≠ [] →
      a.estimator_spec = some es → a.best_candidate_index = some bi →
      a.subnetwork_reports = some rs → a.step = some st →
      iteration_new a = .ok ⟨n, cs, es, bi, a.summaries, a.is_over_fn, rs, st⟩) := by
  obtain ⟨num, cands, es, bi, sm, io, rs, st⟩ := a
  constructor
  · cases num with
    | none => simp [iteration_new]
    | some n =>
      by_cases hn : n < 0
      · simp only [iteration_new, if_pos hn]
        constructor
        · rintro ⟨r, hr⟩; cases hr
        · rintro ⟨⟨n2, hn2, hge⟩, _⟩
          cases hn2
          omega
      · cases cands with
        | none =>
          simp only [iteration_new, if_neg hn]
          constructor
          · rintro ⟨r, hr⟩; cases hr
          · rintro ⟨_, ⟨cs, hcs, _⟩, _⟩; cases hcs
        | some cs =>
          by_cases hcs : cs = []
          · subst hcs
            simp only [iteration_new, if_neg hn, if_pos rfl]
            constructor
            · rintro ⟨r, hr⟩; cases hr
            · rintro ⟨_, ⟨cs2, hcs2, hne⟩, _⟩
              cases hcs2
              exact absurd rfl hne
          · cases es with
            | none =>
              simp only [iteration_new, if_neg hn, if_neg hcs]
              constructor
              · rintro ⟨r, hr⟩; cases hr
              · rintro ⟨_, _, hes, _⟩; cases hes
            | some es0 =>
              cases bi with
              | none =>
                simp only [iteration_new, if_neg hn, if_neg hcs]
                constructor
                · rintro ⟨r, hr⟩; cases hr
                · rintro ⟨_, _, _, hbi, _⟩; cases hbi
              | some bi0 =>
                cases rs with
                | none =>
                  simp only [iteration_new, if_neg hn, if_neg hcs]
                  constructor
                  · rintro ⟨r, hr⟩; cases hr
                  · rintro ⟨_, _, _, _, hrs, _⟩; cases hrs
                | some rs0 =>
                  cases st with
                  | none =>
                    simp only [iteration_new, if_neg hn, if_neg hcs]
                    constructor
                    · rintro ⟨r, hr⟩; cases hr
                    · rintro ⟨_, _, _, _, _, hst⟩; cases hst
                  | some st0 =>
                    simp only [iteration_new, if_neg hn, if_neg hcs]
                    constructor
                    · intro _
                      refine ⟨⟨n, rfl, by omega⟩, ⟨cs, rfl, hcs⟩, rfl, rfl,
                        rfl, rfl⟩
                    · intro _
                      exact ⟨_, rfl⟩
  · intro n cs2 es2 bi2 rs2 st2 h1 h2 h3 h4 h5 h6 h7 h8
    cases h1
    cases h3
    cases h5
    cases h6
    cases h7
    cases h8
    simp only [iteration_new, if_neg (by omega : ¬ n < 0), if_neg h4]

/-- Witness for C9: construction succeeds at `number = 0` with all fields
as given. -/
theorem c9_iteration_validation_witness :
    iteration_new exArgs =
      .ok ⟨0, [exCandCarry], ⟨ModeKeys.TRAIN, .tensor 0, none, .noOp, none, none⟩,
        0, [], 0, [], 0⟩ :=
  (c9_iteration_validation exArgs).2 0 [exCandCarry]
    ⟨ModeKeys.TRAIN, .tensor 0, none, .noOp, none, none⟩ 0 [] 0
    rfl (by decide) rfl (by decide) rfl rfl rfl rfl
